import Mathlib

/-!
Verification of the opendlv-logic-control-speed PID speed controller
(src/opendlv-logic-control-speed.cpp) against its natural-language
specification.  Doubles are modelled as exact rationals; the control-law
arithmetic of the source is purely algebraic, so every branch condition
of the code is reproduced verbatim over ℚ.
-/

namespace SpeedControl

/-- Configuration fixed at startup (main, lines 69-87 of the source):
enable flags and values for the P, D and I gains, the integral limit,
the two output limits, and the tick period dt = 1/freq. -/
structure Cfg where
  hasP : Bool
  hasD : Bool
  hasI : Bool
  hasILimit : Bool
  hasOutputLimitMin : Bool
  hasOutputLimitMax : Bool
  p : ℚ
  d : ℚ
  i : ℚ
  iLimit : ℚ
  outputLimitMin : ℚ
  outputLimitMax : ℚ
  dt : ℚ
  deriving Repr, DecidableEq

/-- Controller state mutated by the tick callback: the integral
accumulator (line 89) and the previous error (line 91). -/
structure St where
  integral : ℚ
  prevError : ℚ
  deriving Repr, DecidableEq

/-- Integral accumulator after the I branch (lines 165-173): when I is
enabled the error is accumulated, and when an integral limit is also
configured and the absolute accumulator exceeds it, the accumulator is
clamped to the limit with the sign it had. -/
def newIntegral (cfg : Cfg) (s : St) (error : ℚ) : ℚ :=
  if cfg.hasI then
    let acc := s.integral + error * cfg.dt
    if cfg.hasILimit && decide (|acc| > cfg.iLimit) then
      if acc > 0 then cfg.iLimit else -cfg.iLimit
    else acc
  else s.integral

/-- Raw P + D + I control sum before output clamping (lines 156-175).
The D term divides by dt and uses the stored previous error; the I term
uses the already-clamped new accumulator. -/
def pidControl (cfg : Cfg) (s : St) (error : ℚ) : ℚ :=
  let c0 : ℚ := 0
  let c1 := if cfg.hasP then c0 + cfg.p * error else c0
  let c2 := if cfg.hasD then c1 + cfg.d * (error - s.prevError) / cfg.dt else c1
  if cfg.hasI then c2 + cfg.i * newIntegral cfg s error else c2

/-- Output minimum clamp (lines 177-179). -/
def clampMin (cfg : Cfg) (c : ℚ) : ℚ :=
  if cfg.hasOutputLimitMin && decide (c < cfg.outputLimitMin) then
    cfg.outputLimitMin
  else c

/-- Output maximum clamp exactly as written in the source (lines
181-183): the branch fires when the control value is strictly BELOW the
configured maximum, and then raises it to the maximum. -/
def clampMax (cfg : Cfg) (c : ℚ) : ℚ :=
  if cfg.hasOutputLimitMax && decide (c < cfg.outputLimitMax) then
    cfg.outputLimitMax
  else c

/-- One ready-tick evaluation of the control law (lines 149-183): the
error, the P/D/I sum, then the two output clamps in order.  Returns the
next controller state and the published control value.  Faithful to the
source, the previous error is NOT updated anywhere in the callback: the
returned state keeps s.prevError unchanged. -/
def step (cfg : Cfg) (s : St) (target reading : ℚ) : St × ℚ :=
  let error := target - reading
  (⟨newIntegral cfg s error, s.prevError⟩,
    clampMax cfg (clampMin cfg (pidControl cfg s error)))

/-- Actuation message built in lines 185-188: acceleration carries the
control value, steering is hardcoded 0.0 and the valid flag hardcoded
true. -/
structure ActuationRequest where
  acceleration : ℚ
  steering : ℚ
  isValid : Bool
  deriving Repr, DecidableEq

/-- State visible to the tick callback: controller state plus the two
shared latest-value cells with their presence flags (lines 93-99). -/
structure LoopState where
  st : St
  hasReading : Bool
  reading : ℚ
  hasTarget : Bool
  target : ℚ
  deriving Repr, DecidableEq

/-- The atFrequency callback (lines 139-193): when either presence flag
is still false the tick is a no-op returning no message (lines 145-147);
otherwise it runs the control law and emits one actuation message. -/
def tick (cfg : Cfg) (ls : LoopState) : LoopState × Option ActuationRequest :=
  if !ls.hasReading || !ls.hasTarget then (ls, none)
  else
    let r := step cfg ls.st ls.target ls.reading
    ({ ls with st := r.1 },
      some ⟨r.2, 0, true⟩)

/-- Initial loop state at startup (lines 89-99): zeroed controller
state, both presence flags false; the uninitialised doubles reading and
target are modelled as arbitrary parameters. -/
def initLoop (r0 t0 : ℚ) : LoopState :=
  ⟨⟨0, 0⟩, false, r0, false, t0⟩

/-- External events the process reacts to: a GroundSpeedReading
envelope, a GroundSpeedRequest envelope (each carrying its sender
stamp), or a timer tick. -/
inductive Event where
  | reading (senderStamp inputSenderId : ℕ) (v : ℚ)
  | target (senderStamp controlSenderId : ℕ) (v : ℚ)
  | timer
  deriving Repr, DecidableEq

/-- Effect of one event on the loop state.  Reading and target
envelopes follow the handlers of lines 103-137: a mismatched sender
stamp is dropped, a matching one overwrites the value and raises the
presence flag.  A timer event runs the tick callback. -/
def stepEvent (cfg : Cfg) (ls : LoopState) : Event → LoopState
  | Event.reading s i v =>
      if s ≠ i then ls else { ls with reading := v, hasReading := true }
  | Event.target s c v =>
      if s ≠ c then ls else { ls with target := v, hasTarget := true }
  | Event.timer => (tick cfg ls).1

/-- Loop state after processing a whole event sequence from startup. -/
def run (cfg : Cfg) (ls : LoopState) (es : List Event) : LoopState :=
  es.foldl (stepEvent cfg) ls

/-- Values of the reading envelopes a sequence delivers (that is, the
ones whose sender stamp matches and which are therefore accepted by the
handler of lines 103-119), in order. -/
def acceptedReadings : List Event → List ℚ
  | [] => []
  | Event.reading s i v :: es =>
      if s ≠ i then acceptedReadings es else v :: acceptedReadings es
  | Event.target _ _ _ :: es => acceptedReadings es
  | Event.timer :: es => acceptedReadings es

/-- Values of the target envelopes a sequence delivers (handler of
lines 121-137), in order. -/
def acceptedTargets : List Event → List ℚ
  | [] => []
  | Event.target s c v :: es =>
      if s ≠ c then acceptedTargets es else v :: acceptedTargets es
  | Event.reading _ _ _ :: es => acceptedTargets es
  | Event.timer :: es => acceptedTargets es

/-- Startup validation of main (lines 30-52): the program only checks
that the cid and freq arguments are PRESENT; when both are it
unconditionally converts freq to uint32 and computes dt = 1/freq
(line 87) before installing the triggers.  Returns the uint32 frequency
the control loop is started with, or none when usage is printed
instead. -/
def mainStartup (hasCid hasFreq : Bool) (freqParsed : ℤ) : Option ℕ :=
  if hasCid && hasFreq then some (freqParsed % 4294967296).toNat else none

/-- The tick callback only ever rewrites the controller state: the
shared cells and their presence flags are left untouched by a tick,
whether ready or not. -/
lemma tick_fst_fields (cfg : Cfg) (ls : LoopState) :
    (tick cfg ls).1.hasReading = ls.hasReading ∧
    (tick cfg ls).1.reading = ls.reading ∧
    (tick cfg ls).1.hasTarget = ls.hasTarget ∧
    (tick cfg ls).1.target = ls.target := by
  unfold tick
  split
  · simp
  · simp

/-- C7: with only the P term enabled (gain k, everything else disabled),
a ready tick outputs exactly k * (target - measurement) and leaves the
integral accumulator unchanged. -/
theorem pOnly_exact (cfg : Cfg) (s : St) (t m : ℚ)
    (hP : cfg.hasP = true) (hD : cfg.hasD = false) (hI : cfg.hasI = false)
    (hIL : cfg.hasILimit = false)
    (hmin : cfg.hasOutputLimitMin = false)
    (hmax : cfg.hasOutputLimitMax = false) :
    (step cfg s t m).2 = cfg.p * (t - m) ∧
    (step cfg s t m).1.integral = s.integral := by
  simp [step, pidControl, newIntegral, clampMin, clampMax,
    hP, hD, hI, hIL, hmin, hmax]

/-- C7 witness: the P-only theorem instantiated at a concrete
configuration, state and inputs. -/
theorem pOnly_exact_witness :
    (step ⟨true, false, false, false, false, false, 2, 0, 0, 0, 0, 0, 1⟩
        ⟨5, 7⟩ 3 1).2 =
      (⟨true, false, false, false, false, false, 2, 0, 0, 0, 0, 0,
          (1 : ℚ)⟩ : Cfg).p * (3 - 1) ∧
    (step ⟨true, false, false, false, false, false, 2, 0, 0, 0, 0, 0, 1⟩
        ⟨5, 7⟩ 3 1).1.integral = (5 : ℚ) :=
  pOnly_exact ⟨true, false, false, false, false, false, 2, 0, 0, 0, 0, 0, 1⟩
    ⟨5, 7⟩ 3 1 rfl rfl rfl rfl rfl rfl

/-- C2: whenever an output maximum is configured, the max-clamp branch
fires exactly when the min-clamped control value is strictly below
outputLimitMax, in which case the published value is outputLimitMax;
otherwise the min-clamped value passes through unchanged. -/
theorem maxClamp_fires_below_max (cfg : Cfg) (s : St) (t m : ℚ)
    (hmax : cfg.hasOutputLimitMax = true) :
    (clampMin cfg (pidControl cfg s (t - m)) < cfg.outputLimitMax →
      (step cfg s t m).2 = cfg.outputLimitMax) ∧
    (cfg.outputLimitMax ≤ clampMin cfg (pidControl cfg s (t - m)) →
      (step cfg s t m).2 = clampMin cfg (pidControl cfg s (t - m))) := by
  constructor
  · intro hlt
    simp [step, clampMax, hmax, hlt]
  · intro hge
    simp [step, clampMax, hmax, not_lt.mpr hge]

/-- C2 witness: at a max-only configuration with outputLimitMax = 4,
a P control value of 1 lies below the maximum, so the branch fires and
the published value is 4. -/
theorem maxClamp_fires_below_max_witness :
    ((1 : ℚ) < 4 ∧
      (step ⟨true, false, false, false, false, true, 1, 0, 0, 0, 0, 4, 1⟩
          ⟨0, 0⟩ 1 0).2 = 4) := by
  refine ⟨by norm_num, ?_⟩
  have h := (maxClamp_fires_below_max
    ⟨true, false, false, false, false, true, 1, 0, 0, 0, 0, 4, 1⟩
    ⟨0, 0⟩ 1 0 rfl).1 (by norm_num [clampMin, pidControl, newIntegral])
  exact h

/-- C9: whenever an output maximum is configured, every value a ready
tick publishes is at least outputLimitMax: the inverted clamp of lines
181-183 makes the configured maximum a lower bound on the output, with
or without a configured minimum. -/
theorem outputMax_is_lower_bound (cfg : Cfg) (s : St) (t m : ℚ)
    (hmax : cfg.hasOutputLimitMax = true) :
    cfg.outputLimitMax ≤ (step cfg s t m).2 := by
  unfold step clampMax
  by_cases hlt : clampMin cfg (pidControl cfg s (t - m)) < cfg.outputLimitMax
  · simp [hmax, hlt]
  · simp [hmax, hlt]
    exact le_of_not_lt hlt

/-- C9 witness: with outputLimitMax = 4 and a P control value of 1, the
published value (4) is at least the configured maximum. -/
theorem outputMax_is_lower_bound_witness :
    (4 : ℚ) ≤ (step ⟨true, false, false, false, false, true, 1, 0, 0, 0, 0, 4, 1⟩
        ⟨0, 0⟩ 1 0).2 :=
  outputMax_is_lower_bound
    ⟨true, false, false, false, false, true, 1, 0, 0, 0, 0, 4, 1⟩ ⟨0, 0⟩ 1 0 rfl

/-- C10: a tick taken before both presence flags are set leaves the
whole loop state unchanged, in particular the integral accumulator and
the previous error, and emits no actuation message. -/
theorem notReady_tick_noop (cfg : Cfg) (ls : LoopState)
    (h : ls.hasReading = false ∨ ls.hasTarget = false) :
    (tick cfg ls).1.st.integral = ls.st.integral ∧
    (tick cfg ls).1.st.prevError = ls.st.prevError ∧
    (tick cfg ls).2 = none := by
  rcases h with h | h <;> simp [tick, h]

/-- C10 witness: a tick at startup, before any delivery, is a no-op. -/
theorem notReady_tick_noop_witness :
    (tick ⟨true, false, false, false, false, false, 1, 0, 0, 0, 0, 0, 1⟩
        (initLoop 0 0)).1.st.integral = (initLoop 0 0).st.integral ∧
    (tick ⟨true, false, false, false, false, false, 1, 0, 0, 0, 0, 0, 1⟩
        (initLoop 0 0)).1.st.prevError = (initLoop 0 0).st.prevError ∧
    (tick ⟨true, false, false, false, false, false, 1, 0, 0, 0, 0, 0, 1⟩
        (initLoop 0 0)).2 = none :=
  notReady_tick_noop
    ⟨true, false, false, false, false, false, 1, 0, 0, 0, 0, 0, 1⟩
    (initLoop 0 0) (Or.inl rfl)

/-- Closed form of the integral update when both the I term and an
integral limit are configured. -/
lemma newIntegral_eq (cfg : Cfg) (s : St) (e : ℚ)
    (hI : cfg.hasI = true) (hIL : cfg.hasILimit = true) :
    newIntegral cfg s e =
      if |s.integral + e * cfg.dt| > cfg.iLimit then
        (if s.integral + e * cfg.dt > 0 then cfg.iLimit else -cfg.iLimit)
      else s.integral + e * cfg.dt := by
  unfold newIntegral
  by_cases habs : |s.integral + e * cfg.dt| > cfg.iLimit
  · simp [hI, hIL, habs]
  · simp [hI, hIL, habs]

/-- C5: with the I term enabled and an integral limit L ≥ 0 configured,
the accumulator after every tick update lies in [-L, L], and the clamp
is sign-preserving: when the freshly accumulated value exceeds L in
absolute value, it is set to L if positive and to -L otherwise. -/
theorem integral_clamped (cfg : Cfg) (s : St) (t m : ℚ)
    (hI : cfg.hasI = true) (hIL : cfg.hasILimit = true)
    (h0 : 0 ≤ cfg.iLimit) :
    (-cfg.iLimit ≤ (step cfg s t m).1.integral ∧
      (step cfg s t m).1.integral ≤ cfg.iLimit) ∧
    (|s.integral + (t - m) * cfg.dt| > cfg.iLimit →
      (step cfg s t m).1.integral =
        if s.integral + (t - m) * cfg.dt > 0 then cfg.iLimit
        else -cfg.iLimit) := by
  have hstep : (step cfg s t m).1.integral =
      newIntegral cfg s (t - m) := rfl
  rw [hstep, newIntegral_eq cfg s (t - m) hI hIL]
  by_cases habs : |s.integral + (t - m) * cfg.dt| > cfg.iLimit
  · rw [if_pos habs]
    refine ⟨?_, fun _ => rfl⟩
    by_cases hpos : s.integral + (t - m) * cfg.dt > 0
    · rw [if_pos hpos]
      exact ⟨neg_le_self h0, le_refl _⟩
    · rw [if_neg hpos]
      exact ⟨le_refl _, neg_le_self h0⟩
  · rw [if_neg habs]
    have hle := abs_le.mp (not_lt.mp habs)
    exact ⟨⟨hle.1, hle.2⟩, fun h => absurd h habs⟩

/-- C5 witness: accumulating error 10 over one second against limit
L = 2 pins the integral at exactly 2, inside [-2, 2]. -/
theorem integral_clamped_witness :
    ((-2 : ℚ) ≤ (step ⟨false, false, true, true, false, false, 0, 0, 1, 2, 0, 0, 1⟩
        ⟨0, 0⟩ 10 0).1.integral ∧
      (step ⟨false, false, true, true, false, false, 0, 0, 1, 2, 0, 0, 1⟩
        ⟨0, 0⟩ 10 0).1.integral ≤ 2) ∧
    (|(0 : ℚ) + (10 - 0) * 1| > 2 →
      (step ⟨false, false, true, true, false, false, 0, 0, 1, 2, 0, 0, 1⟩
        ⟨0, 0⟩ 10 0).1.integral =
        if (0 : ℚ) + (10 - 0) * 1 > 0 then 2 else -2) :=
  integral_clamped
    ⟨false, false, true, true, false, false, 0, 0, 1, 2, 0, 0, 1⟩
    ⟨0, 0⟩ 10 0 rfl rfl (by norm_num)

/-- Reading cell and flag after a run in which no reading envelope is
accepted: both are exactly as they started. -/
lemma run_reading_none (cfg : Cfg) (es : List Event) :
    ∀ ls : LoopState, acceptedReadings es = [] →
      (run cfg ls es).hasReading = ls.hasReading ∧
      (run cfg ls es).reading = ls.reading := by
  induction es with
  | nil => exact fun ls _ => ⟨rfl, rfl⟩
  | cons e es ih =>
    intro ls h
    cases e with
    | reading s i v =>
      by_cases hsi : s ≠ i
      · have hacc : acceptedReadings es = [] := by
          simpa [acceptedReadings, hsi] using h
        have hst : stepEvent cfg ls (Event.reading s i v) = ls := by
          simp [stepEvent, hsi]
        simpa [run, List.foldl_cons, hst] using ih ls hacc
      · simp [acceptedReadings, hsi] at h
    | target s c v =>
      have hacc : acceptedReadings es = [] := by
        simpa [acceptedReadings] using h
      by_cases hsc : s ≠ c
      · have hst : stepEvent cfg ls (Event.target s c v) = ls := by
          simp [stepEvent, hsc]
        simpa [run, List.foldl_cons, hst] using ih ls hacc
      · have hst : stepEvent cfg ls (Event.target s c v) =
            { ls with target := v, hasTarget := true } := by
          simp [stepEvent, hsc]
        have h2 := ih { ls with target := v, hasTarget := true } hacc
        simpa [run, List.foldl_cons, hst] using h2
    | timer =>
      have hacc : acceptedReadings es = [] := by
        simpa [acceptedReadings] using h
      obtain ⟨h1, h2, _, _⟩ := tick_fst_fields cfg ls
      have h3 := ih (tick cfg ls).1 hacc
      have hst : stepEvent cfg ls Event.timer = (tick cfg ls).1 := rfl
      simp only [run, List.foldl_cons, hst] at h3 ⊢
      exact ⟨h3.1.trans h1, h3.2.trans h2⟩

/-- Reading cell and flag after a run in which exactly one reading
envelope (with value r) is accepted: the flag is raised and the cell
holds r. -/
lemma run_reading_single (cfg : Cfg) (es : List Event) :
    ∀ (ls : LoopState) (r : ℚ), acceptedReadings es = [r] →
      (run cfg ls es).hasReading = true ∧
      (run cfg ls es).reading = r := by
  induction es with
  | nil => intro ls r h; simp [acceptedReadings] at h
  | cons e es ih =>
    intro ls r h
    cases e with
    | reading s i v =>
      by_cases hsi : s ≠ i
      · have hacc : acceptedReadings es = [r] := by
          simpa [acceptedReadings, hsi] using h
        have hst : stepEvent cfg ls (Event.reading s i v) = ls := by
          simp [stepEvent, hsi]
        simpa [run, List.foldl_cons, hst] using ih ls r hacc
      · have hvr : v = r ∧ acceptedReadings es = [] := by
          have := h
          simp [acceptedReadings, hsi] at this
          exact this
        have hst : stepEvent cfg ls (Event.reading s i v) =
            { ls with reading := v, hasReading := true } := by
          simp [stepEvent, hsi]
        have h2 := run_reading_none cfg es
          { ls with reading := v, hasReading := true } hvr.2
        simp only [run, List.foldl_cons, hst]
        exact ⟨h2.1, h2.2.trans hvr.1⟩
    | target s c v =>
      have hacc : acceptedReadings es = [r] := by
        simpa [acceptedReadings] using h
      by_cases hsc : s ≠ c
      · have hst : stepEvent cfg ls (Event.target s c v) = ls := by
          simp [stepEvent, hsc]
        simpa [run, List.foldl_cons, hst] using ih ls r hacc
      · have hst : stepEvent cfg ls (Event.target s c v) =
            { ls with target := v, hasTarget := true } := by
          simp [stepEvent, hsc]
        have h2 := ih { ls with target := v, hasTarget := true } r hacc
        simpa [run, List.foldl_cons, hst] using h2
    | timer =>
      have hacc : acceptedReadings es = [r] := by
        simpa [acceptedReadings] using h
      obtain ⟨h1, h2, _, _⟩ := tick_fst_fields cfg ls
      have h3 := ih (tick cfg ls).1 r hacc
      have hst : stepEvent cfg ls Event.timer = (tick cfg ls).1 := rfl
      simp only [run, List.foldl_cons, hst] at h3 ⊢
      exact h3

/-- Target cell and flag after a run in which no target envelope is
accepted: both are exactly as they started. -/
lemma run_target_none (cfg : Cfg) (es : List Event) :
    ∀ ls : LoopState, acceptedTargets es = [] →
      (run cfg ls es).hasTarget = ls.hasTarget ∧
      (run cfg ls es).target = ls.target := by
  induction es with
  | nil => exact fun ls _ => ⟨rfl, rfl⟩
  | cons e es ih =>
    intro ls h
    cases e with
    | target s c v =>
      by_cases hsc : s ≠ c
      · have hacc : acceptedTargets es = [] := by
          simpa [acceptedTargets, hsc] using h
        have hst : stepEvent cfg ls (Event.target s c v) = ls := by
          simp [stepEvent, hsc]
        simpa [run, List.foldl_cons, hst] using ih ls hacc
      · simp [acceptedTargets, hsc] at h
    | reading s i v =>
      have hacc : acceptedTargets es = [] := by
        simpa [acceptedTargets] using h
      by_cases hsi : s ≠ i
      · have hst : stepEvent cfg ls (Event.reading s i v) = ls := by
          simp [stepEvent, hsi]
        simpa [run, List.foldl_cons, hst] using ih ls hacc
      · have hst : stepEvent cfg ls (Event.reading s i v) =
            { ls with reading := v, hasReading := true } := by
          simp [stepEvent, hsi]
        have h2 := ih { ls with reading := v, hasReading := true } hacc
        simpa [run, List.foldl_cons, hst] using h2
    | timer =>
      have hacc : acceptedTargets es = [] := by
        simpa [acceptedTargets] using h
      obtain ⟨_, _, h1, h2⟩ := tick_fst_fields cfg ls
      have h3 := ih (tick cfg ls).1 hacc
      have hst : stepEvent cfg ls Event.timer = (tick cfg ls).1 := rfl
      simp only [run, List.foldl_cons, hst] at h3 ⊢
      exact ⟨h3.1.trans h1, h3.2.trans h2⟩

/-- Target cell and flag after a run in which exactly one target
envelope (with value t) is accepted: the flag is raised and the cell
holds t. -/
lemma run_target_single (cfg : Cfg) (es : List Event) :
    ∀ (ls : LoopState) (t : ℚ), acceptedTargets es = [t] →
      (run cfg ls es).hasTarget = true ∧
      (run cfg ls es).target = t := by
  induction es with
  | nil => intro ls t h; simp [acceptedTargets] at h
  | cons e es ih =>
    intro ls t h
    cases e with
    | target s c v =>
      by_cases hsc : s ≠ c
      · have hacc : acceptedTargets es = [t] := by
          simpa [acceptedTargets, hsc] using h
        have hst : stepEvent cfg ls (Event.target s c v) = ls := by
          simp [stepEvent, hsc]
        simpa [run, List.foldl_cons, hst] using ih ls t hacc
      · have hvt : v = t ∧ acceptedTargets es = [] := by
          have := h
          simp [acceptedTargets, hsc] at this
          exact this
        have hst : stepEvent cfg ls (Event.target s c v) =
            { ls with target := v, hasTarget := true } := by
          simp [stepEvent, hsc]
        have h2 := run_target_none cfg es
          { ls with target := v, hasTarget := true } hvt.2
        simp only [run, List.foldl_cons, hst]
        exact ⟨h2.1, h2.2.trans hvt.1⟩
    | reading s i v =>
      have hacc : acceptedTargets es = [t] := by
        simpa [acceptedTargets] using h
      by_cases hsi : s ≠ i
      · have hst : stepEvent cfg ls (Event.reading s i v) = ls := by
          simp [stepEvent, hsi]
        simpa [run, List.foldl_cons, hst] using ih ls t hacc
      · have hst : stepEvent cfg ls (Event.reading s i v) =
            { ls with reading := v, hasReading := true } := by
          simp [stepEvent, hsi]
        have h2 := ih { ls with reading := v, hasReading := true } t hacc
        simpa [run, List.foldl_cons, hst] using h2
    | timer =>
      have hacc : acceptedTargets es = [t] := by
        simpa [acceptedTargets] using h
      obtain ⟨_, _, h1, h2⟩ := tick_fst_fields cfg ls
      have h3 := ih (tick cfg ls).1 t hacc
      have hst : stepEvent cfg ls Event.timer = (tick cfg ls).1 := rfl
      simp only [run, List.foldl_cons, hst] at h3 ⊢
      exact h3

/-- C4: along any event sequence from startup, a tick taken while no
reading (or no target) envelope has yet been accepted emits no message,
no matter how many ticks came before; and once exactly one reading r
and exactly one target t have been accepted, the very next tick emits a
message computed by the control law from exactly those values. -/
theorem readinessGate (cfg : Cfg) (r0 t0 : ℚ) (es : List Event) :
    ((acceptedReadings es = [] ∨ acceptedTargets es = []) →
      (tick cfg (run cfg (initLoop r0 t0) es)).2 = none) ∧
    (∀ r t : ℚ, acceptedReadings es = [r] → acceptedTargets es = [t] →
      (tick cfg (run cfg (initLoop r0 t0) es)).2 =
        some ⟨(step cfg (run cfg (initLoop r0 t0) es).st t r).2, 0, true⟩) := by
  constructor
  · rintro (h | h)
    · have hf := (run_reading_none cfg es (initLoop r0 t0) h).1
      have hf0 : (run cfg (initLoop r0 t0) es).hasReading = false := by
        rw [hf]; rfl
      simp [tick, hf0]
    · have hf := (run_target_none cfg es (initLoop r0 t0) h).1
      have hf0 : (run cfg (initLoop r0 t0) es).hasTarget = false := by
        rw [hf]; rfl
      simp [tick, hf0]
  · intro r t hr ht
    obtain ⟨hfr, hvr⟩ := run_reading_single cfg es (initLoop r0 t0) r hr
    obtain ⟨hft, hvt⟩ := run_target_single cfg es (initLoop r0 t0) t ht
    simp [tick, hfr, hft, hvr, hvt]

/-- C4 witness: after delivering one reading (10) and one target (12),
the next tick in the concrete P-only scenario emits the message the
control law computes from 12 and 10. -/
theorem readinessGate_witness :
    (tick ⟨true, false, false, false, false, false, 1, 0, 0, 0, 0, 0, 1/50⟩
        (run ⟨true, false, false, false, false, false, 1, 0, 0, 0, 0, 0, 1/50⟩
          (initLoop 0 0)
          [Event.reading 0 0 10, Event.target 0 0 12])).2 =
      some ⟨(step ⟨true, false, false, false, false, false, 1, 0, 0, 0, 0, 0,
          1/50⟩
        (run ⟨true, false, false, false, false, false, 1, 0, 0, 0, 0, 0, 1/50⟩
          (initLoop 0 0)
          [Event.reading 0 0 10, Event.target 0 0 12]).st 12 10).2,
        0, true⟩ :=
  (readinessGate
    ⟨true, false, false, false, false, false, 1, 0, 0, 0, 0, 0, 1/50⟩ 0 0
    [Event.reading 0 0 10, Event.target 0 0 12]).2 10 12
    (by simp [acceptedReadings]) (by simp [acceptedTargets])

/-- C6 counterexample: with minimum 0 and maximum 5 both configured and
a P control value of -1 (strictly below the minimum), the published
value is 5, strictly above the configured minimum 0 — the min clamp
does not make the result exactly the minimum, because the inverted max
clamp then raises it to 5. -/
theorem minClamp_overridden_counterexample :
    pidControl ⟨true, false, false, false, true, true, 1, 0, 0, 0, 0, 5, 1⟩
        ⟨0, 0⟩ (0 - 1) <
      (⟨true, false, false, false, true, true, 1, 0, 0, 0, 0, 5,
          (1 : ℚ)⟩ : Cfg).outputLimitMin ∧
    (⟨true, false, false, false, true, true, 1, 0, 0, 0, 0, 5,
        (1 : ℚ)⟩ : Cfg).outputLimitMin <
      (step ⟨true, false, false, false, true, true, 1, 0, 0, 0, 0, 5, 1⟩
          ⟨0, 0⟩ 0 1).2 := by
  constructor
  · norm_num [pidControl, newIntegral]
  · norm_num [step, pidControl, newIntegral, clampMin, clampMax]

/-- C6 amended: for every ready tick with an output minimum configured,
if the P/I/D control value is strictly below the minimum AND no output
maximum is configured (or the configured maximum does not exceed the
minimum), the published value is exactly the minimum. -/
theorem minClamp_exact (cfg : Cfg) (s : St) (t m : ℚ)
    (hmin : cfg.hasOutputLimitMin = true)
    (hlt : pidControl cfg s (t - m) < cfg.outputLimitMin)
    (hmax : cfg.hasOutputLimitMax = false ∨
      cfg.outputLimitMax ≤ cfg.outputLimitMin) :
    (step cfg s t m).2 = cfg.outputLimitMin := by
  have h1 : clampMin cfg (pidControl cfg s (t - m)) = cfg.outputLimitMin := by
    simp [clampMin, hmin, hlt]
  have h2 : (step cfg s t m).2 =
      clampMax cfg (clampMin cfg (pidControl cfg s (t - m))) := rfl
  rw [h2, h1]
  unfold clampMax
  rcases hmax with h | h
  · simp [h]
  · simp [not_lt.mpr h]

/-- C6 amended witness: minimum 0 configured, no maximum, P control
value -1: the published value is exactly 0. -/
theorem minClamp_exact_witness :
    pidControl ⟨true, false, false, false, true, false, 1, 0, 0, 0, 0, 0, 1⟩
        ⟨0, 0⟩ (0 - 1) <
      (⟨true, false, false, false, true, false, 1, 0, 0, 0, 0, 0,
          (1 : ℚ)⟩ : Cfg).outputLimitMin ∧
    (step ⟨true, false, false, false, true, false, 1, 0, 0, 0, 0, 0, 1⟩
        ⟨0, 0⟩ 0 1).2 =
      (⟨true, false, false, false, true, false, 1, 0, 0, 0, 0, 0,
          (1 : ℚ)⟩ : Cfg).outputLimitMin := by
  have hlt : pidControl
      ⟨true, false, false, false, true, false, 1, 0, 0, 0, 0, 0, 1⟩
      ⟨0, 0⟩ (0 - 1) <
      (⟨true, false, false, false, true, false, 1, 0, 0, 0, 0, 0,
          (1 : ℚ)⟩ : Cfg).outputLimitMin := by
    norm_num [pidControl, newIntegral]
  exact ⟨hlt, minClamp_exact
    ⟨true, false, false, false, true, false, 1, 0, 0, 0, 0, 0, 1⟩
    ⟨0, 0⟩ 0 1 rfl hlt (Or.inl rfl)⟩

/-- C8: every ready tick emits exactly one actuation message whose
acceleration field is the computed control value, whose steering field
is 0 and whose valid flag is true; in particular with frequency 50
(dt = 1/50), kP = 1, no other terms or limits, measurement 10 and
target 12, the first ready tick emits acceleration 2, steering 0,
valid true. -/
theorem readyTick_message (cfg : Cfg) (ls : LoopState)
    (hr : ls.hasReading = true) (ht : ls.hasTarget = true) :
    (tick cfg ls).2 =
      some ⟨(step cfg ls.st ls.target ls.reading).2, 0, true⟩ ∧
    (tick ⟨true, false, false, false, false, false, 1, 0, 0, 0, 0, 0, 1/50⟩
        ⟨⟨0, 0⟩, true, 10, true, 12⟩).2 = some ⟨2, 0, true⟩ := by
  constructor
  · simp [tick, hr, ht]
  · norm_num [tick, step, pidControl, newIntegral, clampMin, clampMax]

/-- C8 witness: the per-tick message shape instantiated at the concrete
end-to-end scenario state. -/
theorem readyTick_message_witness :
    (tick ⟨true, false, false, false, false, false, 1, 0, 0, 0, 0, 0, 1/50⟩
        ⟨⟨0, 0⟩, true, 10, true, 12⟩).2 =
      some ⟨(step ⟨true, false, false, false, false, false, 1, 0, 0, 0, 0, 0,
          1/50⟩ ⟨0, 0⟩ 12 10).2, 0, true⟩ :=
  (readyTick_message
    ⟨true, false, false, false, false, false, 1, 0, 0, 0, 0, 0, 1/50⟩
    ⟨⟨0, 0⟩, true, 10, true, 12⟩ rfl rfl).1

/-- C1 evaluation at the failing input: the code never assigns
prevError (no counterpart of an update exists in atFrequency), so after
a D-only tick with error 1 the stored previous error is still 0, and a
second tick with error 3 publishes d * (3 - 0) / dt = 3 — strictly more
than the value 1 * (3 - 1) / 1 = 2 required by the specification's
update rule. -/
theorem prevError_never_updated :
    (step ⟨false, true, false, false, false, false, 0, 1, 0, 0, 0, 0, 1⟩
        ⟨0, 0⟩ 1 0).1.prevError = 0 ∧
    (step ⟨false, true, false, false, false, false, 0, 1, 0, 0, 0, 0, 1⟩
        (step ⟨false, true, false, false, false, false, 0, 1, 0, 0, 0, 0, 1⟩
          ⟨0, 0⟩ 1 0).1 3 0).2 = 3 ∧
    (1 : ℚ) * (3 - 1) / 1 <
      (step ⟨false, true, false, false, false, false, 0, 1, 0, 0, 0, 0, 1⟩
        (step ⟨false, true, false, false, false, false, 0, 1, 0, 0, 0, 0, 1⟩
          ⟨0, 0⟩ 1 0).1 3 0).2 := by
  refine ⟨rfl, ?_, ?_⟩ <;>
    norm_num [step, pidControl, newIntegral, clampMin, clampMax]

/-- C3 evaluation: main validates only the PRESENCE of the cid and freq
arguments; with freq parsed as 0 the program still proceeds into the
loop (with uint32 frequency 0, so dt = 1/0), and a negative parsed freq
wraps to a huge uint32 rather than being rejected — for every parsed
value the startup succeeds. -/
theorem freq_not_validated :
    mainStartup true true 0 = some 0 ∧
    mainStartup true true (-1) = some 4294967295 ∧
    ∀ z : ℤ, (mainStartup true true z).isSome = true := by
  refine ⟨rfl, ?_, fun z => ?_⟩
  · decide
  · simp [mainStartup]

end SpeedControl
